import Mathlib

set_option maxRecDepth 100000

/-!
Verification of the napi-modules resolver-cache core (src/lib.rs).

Shallow embedding conventions:
* Rust byte strings (`String`, `str`, the contents of `Utf8PathBuf`) are
  modelled as `List Nat` of byte values (`Str`).
* The external `url` crate is modelled at its observable boundary
  (WHATWG-style scheme splitting and lowercasing, percent encoding and
  decoding of the path, the unix `to_file_path` host rule) since the
  repository only consumes it through `Url::parse`, `Url::scheme`,
  `Url::to_file_path` and `Url::from_file_path`.
* `camino::Utf8PathBuf` equality and hashing delegate to `std::path::Path`,
  which compares by components; `pathComponents`/`utf8PathEq` model that.
* Fallible host-capability calls (`napi::Result`) become `Except Str`;
  a Rust panic (`expect`) becomes `Option` with `none` for the panic.
* The `#[memoize]` attribute (memoize crate, no options) wraps a function
  in a process-wide table that stores every computed result, `Ok` and
  `Err` alike; the tables and the observable side effects (host-capability
  invocations, disk-write attempts, file contents) are threaded through an
  explicit `CacheState`.
-/

namespace NapiModules

/-- Byte strings: Rust string and path contents as lists of byte values. -/
abbrev Str : Type := List Nat

/-- Bytes of an ASCII string literal. -/
def bytesOfAscii (s : String) : Str := s.data.map Char.toNat

/-- Bytes of the literal scheme `file` checked by the normalizer. -/
def fileBytes : Str := bytesOfAscii "file"

/-- Bytes of the host name `localhost`, accepted by `to_file_path` on unix. -/
def localhostBytes : Str := bytesOfAscii "localhost"

/-! URL model (boundary of the `url` crate as consumed by src/lib.rs). -/

def isUpperAlpha (b : Nat) : Bool := 65 ≤ b && b ≤ 90

def isLowerAlpha (b : Nat) : Bool := 97 ≤ b && b ≤ 122

def isAlphaByte (b : Nat) : Bool := isUpperAlpha b || isLowerAlpha b

def isDigitByte (b : Nat) : Bool := 48 ≤ b && b ≤ 57

/-- Bytes allowed after the first byte of a URL scheme. -/
def isSchemeByte (b : Nat) : Bool :=
  isAlphaByte b || isDigitByte b || b == 43 || b == 45 || b == 46

/-- ASCII lowercasing applied by the URL parser to scheme and host. -/
def lowerByte (b : Nat) : Nat := if isUpperAlpha b then b + 32 else b

/-- Split a byte string at its first colon (byte 58). -/
def splitAtColon : Str → Option (Str × Str)
  | [] => none
  | b :: rest =>
    if b = 58 then some ([], rest)
    else
      match splitAtColon rest with
      | some (s, r) => some (b :: s, r)
      | none => none

/-- A scheme is one alphabetic byte followed by scheme bytes. -/
def validSchemeBytes : Str → Bool
  | [] => false
  | b :: rest => isAlphaByte b && rest.all isSchemeByte

/-- Parsed URL, reduced to the fields src/lib.rs consumes. -/
structure Url where
  scheme : Str
  host : Str
  path : Str
deriving DecidableEq

/-- Parse failure of the URL parser (the one shape the model needs). -/
inductive UrlParseError
  | relativeUrlWithoutBase
deriving DecidableEq

/-- Model of `url::Url::parse` on the inputs this repository feeds it:
scheme split at the first colon and lowercased, an optional `//authority`
whose host is lowercased, and the remainder kept percent-encoded as the
serialized path (always slash-rooted). -/
def parseUrl (s : Str) : Except UrlParseError Url :=
  match splitAtColon s with
  | none => .error .relativeUrlWithoutBase
  | some (schemeRaw, rest) =>
    if validSchemeBytes schemeRaw then
      let scheme := schemeRaw.map lowerByte
      match rest with
      | 47 :: 47 :: afterSlashes =>
        let host := (afterSlashes.takeWhile (fun b => b ≠ 47)).map lowerByte
        let pathPart := afterSlashes.dropWhile (fun b => b ≠ 47)
        .ok { scheme := scheme, host := host,
              path := if pathPart = [] then [47] else pathPart }
      | 47 :: tail => .ok { scheme := scheme, host := [], path := 47 :: tail }
      | other => .ok { scheme := scheme, host := [], path := 47 :: other }
    else .error .relativeUrlWithoutBase

/-- Uppercase hex digit byte for a value below 16. -/
def hexDigitByte (n : Nat) : Nat := if n < 10 then 48 + n else 55 + n

def isHexDigitByte (b : Nat) : Bool :=
  isDigitByte b || (65 ≤ b && b ≤ 70) || (97 ≤ b && b ≤ 102)

def hexVal (b : Nat) : Nat :=
  if b ≤ 57 then b - 48 else if b ≤ 70 then b - 55 else b - 87

/-- Path bytes the `url` crate serializes verbatim (printable ASCII minus
the PATH percent-encode set). -/
def pathSafeByte (b : Nat) : Bool :=
  33 ≤ b && b ≤ 126 && !([34, 35, 37, 60, 62, 63, 96, 123, 125].contains b)

def percentEncodeByte (b : Nat) : Str :=
  if pathSafeByte b then [b]
  else [37, hexDigitByte (b / 16 % 16), hexDigitByte (b % 16)]

/-- Percent-encoding of a path, as `Url::from_file_path` performs it. -/
def percentEncode (s : Str) : Str := (s.map percentEncodeByte).flatten

/-- Percent-decoding of a serialized path, as `Url::to_file_path`
performs it; a `%` that is not followed by two hex digits stays verbatim. -/
def percentDecode : Str → Str
  | [] => []
  | 37 :: c :: d :: rest =>
    if isHexDigitByte c && isHexDigitByte d then
      (hexVal c * 16 + hexVal d) :: percentDecode rest
    else 37 :: percentDecode (c :: d :: rest)
  | b :: rest => b :: percentDecode rest

/-- Model of `url::Url::to_file_path` on unix: the host must be empty or
`localhost`, the serialized path must be slash-rooted, and the result is
the percent-decoded path. -/
def toFilePath (u : Url) : Except Unit Str :=
  if u.host ≠ [] ∧ u.host ≠ localhostBytes then .error ()
  else
    match u.path with
    | 47 :: _ => .ok (percentDecode u.path)
    | _ => .error ()

/-- Continuation byte of a UTF-8 sequence. -/
def isContByte (b : Nat) : Bool := 128 ≤ b && b ≤ 191

/-- UTF-8 validity of a byte string, the check performed by
`Utf8PathBuf::from_path_buf`. -/
def isValidUtf8 : List Nat → Bool
  | [] => true
  | b :: r =>
    if b ≤ 127 then isValidUtf8 r
    else
      match r with
      | [] => false
      | c :: r2 =>
        if 194 ≤ b ∧ b ≤ 223 then isContByte c && isValidUtf8 r2
        else
          match r2 with
          | [] => false
          | d :: r3 =>
            if b = 224 then
              (160 ≤ c && c ≤ 191) && isContByte d && isValidUtf8 r3
            else if (225 ≤ b ∧ b ≤ 236) ∨ b = 238 ∨ b = 239 then
              isContByte c && isContByte d && isValidUtf8 r3
            else if b = 237 then
              (128 ≤ c && c ≤ 159) && isContByte d && isValidUtf8 r3
            else
              match r3 with
              | [] => false
              | e :: r4 =>
                if b = 240 then
                  (144 ≤ c && c ≤ 191) && isContByte d && isContByte e &&
                    isValidUtf8 r4
                else if 241 ≤ b ∧ b ≤ 243 then
                  isContByte c && isContByte d && isContByte e &&
                    isValidUtf8 r4
                else if b = 244 then
                  (128 ≤ c && c ≤ 143) && isContByte d && isContByte e &&
                    isValidUtf8 r4
                else false

/-- Error enum `FileUrlStringToUtf8PathBufError` of src/lib.rs. -/
inductive FileUrlStringToUtf8PathBufError
  | urlParseError (e : UrlParseError)
  | schemeNotFile
  | toFilePathFailed
  | pathNotUtf8
deriving DecidableEq

/-- The normalizer `file_url_string_to_utf8_path_buf` of src/lib.rs:
parse, reject non-`file` schemes, convert to a filesystem path, and
validate UTF-8. -/
def fileUrlStringToUtf8PathBuf (s : Str) :
    Except FileUrlStringToUtf8PathBufError Str :=
  match parseUrl s with
  | .error e => .error (.urlParseError e)
  | .ok url =>
    if url.scheme ≠ fileBytes then .error .schemeNotFile
    else
      match toFilePath url with
      | .error _ => .error .toFilePathFailed
      | .ok path =>
        if isValidUtf8 path then .ok path else .error .pathNotUtf8

/-- Model of `url::Url::from_file_path` followed by serialization: build a
`file://` URL string from an absolute path, used to state the
normalize round trip. -/
def fileUrlStringFromPath (p : Str) : Option Str :=
  match p with
  | 47 :: _ => some (bytesOfAscii "file://" ++ percentEncode p)
  | _ => none

/-- Display string of the parse error, as `thiserror` formats it. -/
def urlParseErrorMessage : UrlParseError → Str
  | .relativeUrlWithoutBase => bytesOfAscii "relative URL without a base"

/-- Display strings of `FileUrlStringToUtf8PathBufError`, as the
`#[error(...)]` attributes in src/lib.rs format them. -/
def fileUrlErrorMessage : FileUrlStringToUtf8PathBufError → Str
  | .urlParseError e => bytesOfAscii "parse error: " ++ urlParseErrorMessage e
  | .schemeNotFile => bytesOfAscii "scheme is not 'file'"
  | .toFilePathFailed => bytesOfAscii "to_file_path failed"
  | .pathNotUtf8 => bytesOfAscii "path is not valid UTF-8"

/-! Path equality model: `camino::Utf8PathBuf` equality and hashing
delegate to `std::path::Path`, which compares component sequences. -/

/-- Component sequence of a unix path, as `std::path::Path::components`
yields it: a root marker (modelled as `[]`) for absolute paths, a leading
current-directory marker (modelled as `[46]`) kept only at the front of a
relative path, empty and `.` segments dropped elsewhere. -/
def pathComponents (p : Str) : List Str :=
  let filtered := (p.splitOn 47).filter (fun s => decide (s ≠ [] ∧ s ≠ [46]))
  match p with
  | 47 :: _ => [] :: filtered
  | [46] => [[46]]
  | 46 :: 47 :: _ => [46] :: filtered
  | _ => filtered

/-- Equality of `Utf8PathBuf` values (component-wise path equality). -/
def utf8PathEq (a b : Str) : Bool := decide (pathComponents a = pathComponents b)

/-- Model of `Utf8PathBuf::with_added_extension`: append a dot and the
extension to the path. -/
def withAddedExtension (p : Str) (ext : Str) : Str := p ++ [46] ++ ext

/-- The fixed extension `esm-helpers.js` used by `esm_helpers_path_for`. -/
def esmHelpersExtBytes : Str := bytesOfAscii "esm-helpers.js"

/-- The fixed helper-script body `ESM_HELPERS_JS` of src/lib.rs. -/
def esmHelpersJs : Str :=
  bytesOfAscii "\n        const _import = (specifier, options) => import(specifier, options);\n        export \x7b _import as \"import\" \x7d;\n        export const importMetaResolve = (specifier) => import.meta.resolve(specifier);\n    "

/-! Host model: an execution-context handle together with the outcomes of
every host-capability call src/lib.rs performs on it.  Outcomes are fixed
per handle, matching the spec assumption that a handle's reported file
location is stable. -/

/-- Execution-context handle (`napi::Env`) with the observable outcomes of
each host-capability call made by src/lib.rs.  `structuralTag` stands for
every structural aspect of the handle that is irrelevant to identity. -/
structure Env where
  fileUrl : Except Str Str
  structuralTag : Nat
  getGlobal : Except Str Unit
  processProp : Except Str Unit
  getBuiltinModuleProp : Except Str Unit
  callGetBuiltinModule : Except Str Unit
  castModule : Except Str Unit
  createRequireProp : Except Str Unit
  callCreateRequire : Str → Except Str Nat
  createRef : Except Str Unit
  borrowBack : Except Str Unit
  mainProp : Except Str (Option (Except Str Str))
  requireEsmHelpers : Str → Except Str Nat
  castEsmHelpers : Except Str Unit
  createEsmRef : Except Str Unit

/-- A deterministic 64-bit string hash standing for the Rust hasher fed by
`EnvEqHash::hash` (any function of the byte string is faithful here). -/
def hashBytes (s : Str) : Nat :=
  s.foldl (fun h b => (h * 31 + b) % (2 ^ 64)) 5381

/-- Model of `EnvEqHash::eq`: compare the raw reported file-location
strings; `none` models the `expect` panic when the host cannot report one
(self is asked first, then other, as in the source). -/
def envEqHashEq (a b : Env) : Option Bool :=
  match a.fileUrl with
  | .error _ => none
  | .ok x =>
    match b.fileUrl with
    | .error _ => none
    | .ok y => some (decide (x = y))

/-- Model of `EnvEqHash::hash`: hash the raw reported file-location
string; `none` models the `expect` panic. -/
def envEqHashHash (a : Env) : Option Nat :=
  match a.fileUrl with
  | .error _ => none
  | .ok x => some (hashBytes x)

/-- Model of `EnvExt::filename`: fetch the module file-location string
(a recoverable error here, unlike in `EnvEqHash`) and normalize it. -/
def filename (env : Env) : Except Str Str :=
  match env.fileUrl with
  | .error e => .error e
  | .ok f =>
    match fileUrlStringToUtf8PathBuf f with
    | .ok p => .ok p
    | .error e => .error (fileUrlErrorMessage e)

/-! Cache model: the three `#[memoize]` tables plus the observable
side-effect logs (computations performed, disk-write attempts, file
contents). -/

/-- Decidable equality of `Except` results, needed to evaluate claims on
concrete inputs. -/
instance {ε α : Type} [DecidableEq ε] [DecidableEq α] :
    DecidableEq (Except ε α) := fun a b =>
  match a, b with
  | .error e, .error f =>
    if h : e = f then isTrue (by rw [h])
    else isFalse (by intro hh; cases hh; exact h rfl)
  | .error _, .ok _ => isFalse (by intro hh; cases hh)
  | .ok _, .error _ => isFalse (by intro hh; cases hh)
  | .ok x, .ok y =>
    if h : x = y then isTrue (by rw [h])
    else isFalse (by intro hh; cases hh; exact h rfl)

/-- Process-wide state: memoization tables of `require_for`,
`esm_helpers_for` and `esm_helpers_path_for`, logs of the identities for
which each memoized body actually ran, the log of disk-write attempts,
and the filesystem contents. -/
structure CacheState where
  requireMemo : List (Str × Except Str Nat)
  esmMemo : List (Str × Except Str Nat)
  esmPathMemo : List (Str × Except Str Str)
  requireComputations : List Str
  esmComputations : List Str
  writeAttempts : List Str
  files : List (Str × Str)
deriving DecidableEq

/-- The empty process-start state. -/
def initState : CacheState := ⟨[], [], [], [], [], [], []⟩

/-- Lookup in a memoization table under a given key equality (the
`Eq` impl of the key type of the corresponding Rust `HashMap`). -/
def memoFind (eqf : Str → Str → Bool) (k : Str) :
    List (Str × α) → Option α
  | [] => none
  | (k', v) :: rest => if eqf k k' then some v else memoFind eqf k rest

/-- Raw byte-string equality (the `Eq` of `String` keys and of
`EnvEqHash`, which compares raw file-location strings). -/
def beqStr (a b : Str) : Bool := decide (a = b)

/-- Overwriting filesystem write (`fs_err::write` semantics). -/
def setFile (p c : Str) : List (Str × Str) → List (Str × Str)
  | [] => [(p, c)]
  | (q, d) :: rest =>
    if utf8PathEq p q then (q, c) :: rest else (q, d) :: setFile p c rest

/-- Contents of a file in the modelled filesystem. -/
def lookupFile (p : Str) (files : List (Str × Str)) : Option Str :=
  memoFind utf8PathEq p files

/-- Model of `esm_helpers_path_for` (src/lib.rs lines 76-86): memoized by
the native module's `Utf8PathBuf`; on a miss, derive the sibling path by
adding the fixed extension, attempt the disk write (logged), and store the
result — `Ok` path or `IoError` message — in the memo table.  The write
outcome is supplied by the ambient filesystem `fs`. -/
def esm_helpers_path_for (fs : Str → Except Str Unit) (addonPath : Str)
    (st : CacheState) : Except Str Str × CacheState :=
  match memoFind utf8PathEq addonPath st.esmPathMemo with
  | some r => (r, st)
  | none =>
    match fs (withAddedExtension addonPath esmHelpersExtBytes) with
    | .error e =>
      (.error e,
        { st with
            writeAttempts := st.writeAttempts ++
              [withAddedExtension addonPath esmHelpersExtBytes],
            esmPathMemo := st.esmPathMemo ++ [(addonPath, .error e)] })
    | .ok _ =>
      (.ok (withAddedExtension addonPath esmHelpersExtBytes),
        { st with
            writeAttempts := st.writeAttempts ++
              [withAddedExtension addonPath esmHelpersExtBytes],
            files := setFile (withAddedExtension addonPath esmHelpersExtBytes)
              esmHelpersJs st.files,
            esmPathMemo := st.esmPathMemo ++
              [(addonPath,
                .ok (withAddedExtension addonPath esmHelpersExtBytes))] })

/-- Display of `EsmHelpersPathForError::IoError` as `esm_helpers_for`
stringifies it. -/
def ioErrorMessage (e : Str) : Str := bytesOfAscii "I/O error: " ++ e

/-- Body of `require_for` (src/lib.rs lines 132-146): the host-capability
chain global → process → getBuiltinModule → call → cast → createRequire →
filename → call createRequire(path) → create_ref, every failure
stringified. -/
def requireBody (env : Env) (f : Str) : Except Str Nat := do
  env.getGlobal
  env.processProp
  env.getBuiltinModuleProp
  env.callGetBuiltinModule
  env.castModule
  env.createRequireProp
  let path ←
    match fileUrlStringToUtf8PathBuf f with
    | .ok p => Except.ok p
    | .error e => Except.error (fileUrlErrorMessage e)
  let h ← env.callCreateRequire path
  env.createRef
  return h

/-- The memoized `require_for` at a known identity key `f` (the file
string `EnvEqHash` equality and hashing reduce the key to). -/
def requireForKeyed (env : Env) (f : Str) (st : CacheState) :
    Except Str Nat × CacheState :=
  match memoFind beqStr f st.requireMemo with
  | some r => (r, st)
  | none =>
    (requireBody env f,
      { st with
          requireComputations := st.requireComputations ++ [f],
          requireMemo := st.requireMemo ++ [(f, requireBody env f)] })

/-- Memoized `require_for`: computing the `EnvEqHash` key panics (`none`)
when the host cannot report the file-location string. -/
def require_for (env : Env) (st : CacheState) :
    Option (Except Str Nat × CacheState) :=
  match env.fileUrl with
  | .error _ => none
  | .ok f => some (requireForKeyed env f st)

/-- Body of `esm_helpers_for` (src/lib.rs lines 148-160): filename,
materialize the helper script, obtain the (memoized) require handle,
rebind it, require the helper script, cast, and persist a reference. -/
def esmBody (fs : Str → Except Str Unit) (env : Env) (f : Str)
    (st : CacheState) : Except Str Nat × CacheState :=
  match fileUrlStringToUtf8PathBuf f with
  | .error e => (.error (fileUrlErrorMessage e), st)
  | .ok path =>
    match esm_helpers_path_for fs path st with
    | (.error e, st1) => (.error (ioErrorMessage e), st1)
    | (.ok esmHelpersPath, st1) =>
      match requireForKeyed env f st1 with
      | (.error e, st2) => (.error e, st2)
      | (.ok _, st2) =>
        match env.borrowBack with
        | .error e => (.error e, st2)
        | .ok _ =>
          match env.requireEsmHelpers esmHelpersPath with
          | .error e => (.error e, st2)
          | .ok h =>
            match env.castEsmHelpers with
            | .error e => (.error e, st2)
            | .ok _ =>
              match env.createEsmRef with
              | .error e => (.error e, st2)
              | .ok _ => (.ok h, st2)

/-- The memoized `esm_helpers_for` at a known identity key. -/
def esmForKeyed (fs : Str → Except Str Unit) (env : Env) (f : Str)
    (st : CacheState) : Except Str Nat × CacheState :=
  match memoFind beqStr f st.esmMemo with
  | some r => (r, st)
  | none =>
    match esmBody fs env f
        { st with esmComputations := st.esmComputations ++ [f] } with
    | (r, st2) => (r, { st2 with esmMemo := st2.esmMemo ++ [(f, r)] })

/-- Memoized `esm_helpers_for`; `none` models the `EnvEqHash` key panic. -/
def esm_helpers_for (fs : Str → Except Str Unit) (env : Env)
    (st : CacheState) : Option (Except Str Nat × CacheState) :=
  match env.fileUrl with
  | .error _ => none
  | .ok f => some (esmForKeyed fs env f st)

/-- Model of `EnvExt::is_main` (src/lib.rs lines 54-66): obtain the cached
require handle, rebind it, read its `main` property; with no entry-point
module the result is `Ok(false)`, otherwise compare the normalized current
filename with the entry point's `filename` property as paths. -/
def is_main (env : Env) (st : CacheState) :
    Option (Except Str Bool × CacheState) :=
  match env.fileUrl with
  | .error _ => none
  | .ok f =>
    match requireForKeyed env f st with
    | (.error e, st1) => some (.error e, st1)
    | (.ok _, st1) =>
      match env.borrowBack with
      | .error e => some (.error e, st1)
      | .ok _ =>
        match env.mainProp with
        | .error e => some (.error e, st1)
        | .ok none => some (.ok false, st1)
        | .ok (some mainFilenameRes) =>
          match fileUrlStringToUtf8PathBuf f with
          | .error e => some (.error (fileUrlErrorMessage e), st1)
          | .ok selfPath =>
            match mainFilenameRes with
            | .error e => some (.error e, st1)
            | .ok mainPath => some (.ok (utf8PathEq selfPath mainPath), st1)

/-! General lemmas about the memoization tables. -/

theorem memoFind_append {α : Type} (eqf : Str → Str → Bool) (k : Str)
    (l1 l2 : List (Str × α)) (h : memoFind eqf k l1 = none) :
    memoFind eqf k (l1 ++ l2) = memoFind eqf k l2 := by
  induction l1 with
  | nil => simp
  | cons kv rest ih =>
    obtain ⟨k', v⟩ := kv
    by_cases hk : eqf k k' = true
    · simp [memoFind, hk] at h
    · simp only [memoFind, hk] at h
      simpa [memoFind, hk] using ih h

theorem memoFind_self_append {α : Type} (eqf : Str → Str → Bool) (k : Str)
    (v : α) (l : List (Str × α)) (h : memoFind eqf k l = none)
    (hrefl : eqf k k = true) : memoFind eqf k (l ++ [(k, v)]) = some v := by
  rw [memoFind_append eqf k l [(k, v)] h]
  simp [memoFind, hrefl]

theorem memoFind_congr {α : Type} (eqf : Str → Str → Bool) (k k' : Str)
    (l : List (Str × α)) (h : ∀ x, eqf k x = eqf k' x) :
    memoFind eqf k l = memoFind eqf k' l := by
  induction l with
  | nil => rfl
  | cons kv rest ih =>
    obtain ⟨x, v⟩ := kv
    simp only [memoFind, h x, ih]

theorem beqStr_self (f : Str) : beqStr f f = true := by simp [beqStr]

theorem utf8PathEq_refl (p : Str) : utf8PathEq p p = true := by
  simp [utf8PathEq]

theorem utf8PathEq_congr (p p' : Str) (h : utf8PathEq p' p = true) :
    ∀ k, utf8PathEq p' k = utf8PathEq p k := by
  intro k
  simp only [utf8PathEq, decide_eq_true_eq] at h ⊢
  rw [h]

/-- A second `require_for` lookup for the same identity, from any handle
reporting that identity, returns the stored result and leaves the state
unchanged. -/
theorem requireForKeyed_fix (env env' : Env) (f : Str) (st : CacheState)
    (r : Except Str Nat) (st1 : CacheState)
    (h : requireForKeyed env f st = (r, st1)) :
    requireForKeyed env' f st1 = (r, st1) := by
  unfold requireForKeyed at h ⊢
  cases hm : memoFind beqStr f st.requireMemo with
  | some v =>
    rw [hm] at h
    simp only [Prod.mk.injEq] at h
    obtain ⟨rfl, rfl⟩ := h
    rw [hm]
  | none =>
    rw [hm] at h
    simp only [Prod.mk.injEq] at h
    obtain ⟨rfl, rfl⟩ := h
    simp only [memoFind_self_append beqStr f _ _ hm (beqStr_self f)]

/-- State components `esm_helpers_path_for` never touches. -/
theorem esmPathFor_frame (fs : Str → Except Str Unit) (p : Str)
    (st : CacheState) :
    (esm_helpers_path_for fs p st).2.esmMemo = st.esmMemo ∧
    (esm_helpers_path_for fs p st).2.requireMemo = st.requireMemo ∧
    (esm_helpers_path_for fs p st).2.requireComputations =
      st.requireComputations ∧
    (esm_helpers_path_for fs p st).2.esmComputations = st.esmComputations := by
  unfold esm_helpers_path_for
  split
  · exact ⟨rfl, rfl, rfl, rfl⟩
  · split <;> exact ⟨rfl, rfl, rfl, rfl⟩

/-- State components `requireForKeyed` never touches. -/
theorem requireForKeyed_frame (env : Env) (f : Str) (st : CacheState) :
    (requireForKeyed env f st).2.esmMemo = st.esmMemo ∧
    (requireForKeyed env f st).2.esmPathMemo = st.esmPathMemo ∧
    (requireForKeyed env f st).2.writeAttempts = st.writeAttempts ∧
    (requireForKeyed env f st).2.esmComputations = st.esmComputations ∧
    (requireForKeyed env f st).2.files = st.files := by
  unfold requireForKeyed
  split <;> exact ⟨rfl, rfl, rfl, rfl, rfl⟩

/-- The `esm_helpers_for` body never touches the `esm_helpers_for` memo
table itself. -/
theorem esmBody_esmMemo (fs : Str → Except Str Unit) (env : Env) (f : Str)
    (st : CacheState) : (esmBody fs env f st).2.esmMemo = st.esmMemo := by
  unfold esmBody
  split
  · rfl
  next path hpath =>
    split
    next e st1 heq1 =>
      have h1 := (esmPathFor_frame fs path st).1
      rw [heq1] at h1
      exact h1
    next esmPath st1 heq1 =>
      have h1 := (esmPathFor_frame fs path st).1
      rw [heq1] at h1
      split
      next e st2 heq2 =>
        have h2 := (requireForKeyed_frame env f st1).1
        rw [heq2] at h2
        exact h2.trans h1
      next a st2 heq2 =>
        have h2 := (requireForKeyed_frame env f st1).1
        rw [heq2] at h2
        split
        · exact h2.trans h1
        · split
          · exact h2.trans h1
          · split
            · exact h2.trans h1
            · split
              · exact h2.trans h1
              · exact h2.trans h1

/-- A second `esm_helpers_for` lookup for the same identity returns the
stored result and leaves the state unchanged, for any handle reporting
that identity and any ambient filesystem. -/
theorem esmForKeyed_fix (fs fs' : Str → Except Str Unit) (env env' : Env)
    (f : Str) (st : CacheState) (r : Except Str Nat) (st1 : CacheState)
    (h : esmForKeyed fs env f st = (r, st1)) :
    esmForKeyed fs' env' f st1 = (r, st1) := by
  unfold esmForKeyed at h ⊢
  cases hm : memoFind beqStr f st.esmMemo with
  | some v =>
    rw [hm] at h
    simp only [Prod.mk.injEq] at h
    obtain ⟨rfl, rfl⟩ := h
    rw [hm]
  | none =>
    rw [hm] at h
    have hbody := esmBody_esmMemo fs env f
      { st with esmComputations := st.esmComputations ++ [f] }
    cases hb : esmBody fs env f
        { st with esmComputations := st.esmComputations ++ [f] } with
    | mk rb st2 =>
      rw [hb] at h hbody
      simp only [Prod.mk.injEq] at h
      obtain ⟨rfl, rfl⟩ := h
      simp only at hbody
      simp only [hbody, memoFind_self_append beqStr f _ _ hm (beqStr_self f)]

/-- A second `esm_helpers_path_for` call for an equal path returns the
stored result and leaves the state unchanged — in particular it attempts
no further disk write. -/
theorem esmPathFor_fix (fs fs' : Str → Except Str Unit) (p p' : Str)
    (st : CacheState) (r : Except Str Str) (st1 : CacheState)
    (hpe : utf8PathEq p' p = true)
    (h : esm_helpers_path_for fs p st = (r, st1)) :
    esm_helpers_path_for fs' p' st1 = (r, st1) := by
  unfold esm_helpers_path_for at h ⊢
  rw [memoFind_congr utf8PathEq p' p _ (utf8PathEq_congr p p' hpe)]
  cases hm : memoFind utf8PathEq p st.esmPathMemo with
  | some v =>
    rw [hm] at h
    simp only [Prod.mk.injEq] at h
    obtain ⟨rfl, rfl⟩ := h
    rw [hm]
  | none =>
    rw [hm] at h
    cases hfs : fs (withAddedExtension p esmHelpersExtBytes) with
    | error e =>
      rw [hfs] at h
      simp only [Prod.mk.injEq] at h
      obtain ⟨rfl, rfl⟩ := h
      simp only [memoFind_self_append utf8PathEq p (Except.error e) _ hm
        (utf8PathEq_refl p)]
    | ok u =>
      rw [hfs] at h
      simp only [Prod.mk.injEq] at h
      obtain ⟨rfl, rfl⟩ := h
      simp only [memoFind_self_append utf8PathEq p
        (Except.ok (withAddedExtension p esmHelpersExtBytes)) _ hm
        (utf8PathEq_refl p)]

/-! Concrete host handles used by the witnesses. -/

/-- A fully cooperative host handle reporting file location `u`. -/
def okEnvAt (u : Str) : Env :=
  { fileUrl := .ok u, structuralTag := 0,
    getGlobal := .ok (), processProp := .ok (),
    getBuiltinModuleProp := .ok (), callGetBuiltinModule := .ok (),
    castModule := .ok (), createRequireProp := .ok (),
    callCreateRequire := fun _ => .ok 1, createRef := .ok (),
    borrowBack := .ok (), mainProp := .ok none,
    requireEsmHelpers := fun _ => .ok 2,
    castEsmHelpers := .ok (), createEsmRef := .ok () }

/-- A cooperative handle at the canonical example location. -/
def envA : Env := okEnvAt (bytesOfAscii "file:///opt/app/addon.node")

/-- A handle with the same reported file location as `envA` but different
in every structural respect the model tracks. -/
def envB : Env :=
  { envA with structuralTag := 7, callCreateRequire := fun _ => .ok 99,
              mainProp := .error (bytesOfAscii "no main"),
              requireEsmHelpers := fun _ => .error (bytesOfAscii "boom") }

/-- A handle whose host cannot report a file-location string. -/
def envBroken : Env :=
  { envA with fileUrl := .error (bytesOfAscii "host failure") }

/-- C3: if the host fails to report a file-location string during
Execution-Context Identity equality or hash computation, `EnvEqHash`
panics (the `expect` call, modelled as `none`) instead of producing a
recoverable error value or falling back to some other comparison. -/
theorem identity_failure_is_panic (a b : Env) (e : Str)
    (h : a.fileUrl = .error e) :
    envEqHashEq a b = none ∧ envEqHashEq b a = none ∧
      envEqHashHash a = none := by
  refine ⟨?_, ?_, ?_⟩
  · unfold envEqHashEq
    rw [h]
  · unfold envEqHashEq
    cases hb : b.fileUrl with
    | error _ => rfl
    | ok y => rw [h]
  · unfold envEqHashHash
    rw [h]

/-- Witness for C3 at a concrete broken handle. -/
theorem identity_failure_is_panic_witness :
    envBroken.fileUrl = .error (bytesOfAscii "host failure") ∧
    (envEqHashEq envBroken envA = none ∧ envEqHashEq envA envBroken = none ∧
      envEqHashHash envBroken = none) :=
  ⟨rfl, identity_failure_is_panic envBroken envA
    (bytesOfAscii "host failure") rfl⟩

/-- C5: any input the URL parser accepts with a scheme other than `file`
makes the normalizer fail with `SchemeNotFile`, never with the
parse-failure kind. -/
theorem scheme_mismatch_error_kind (s : Str) (u : Url)
    (hp : parseUrl s = .ok u) (hs : u.scheme ≠ fileBytes) :
    fileUrlStringToUtf8PathBuf s = .error .schemeNotFile := by
  unfold fileUrlStringToUtf8PathBuf
  rw [hp]
  simp [hs]

/-- Witness for C5 at the spec's own example input `http://x/y`. -/
theorem scheme_mismatch_error_kind_witness :
    parseUrl (bytesOfAscii "http://x/y") =
      .ok ⟨bytesOfAscii "http", bytesOfAscii "x", bytesOfAscii "/y"⟩ ∧
    fileUrlStringToUtf8PathBuf (bytesOfAscii "http://x/y") =
      .error .schemeNotFile :=
  ⟨by decide,
    scheme_mismatch_error_kind (bytesOfAscii "http://x/y")
      ⟨bytesOfAscii "http", bytesOfAscii "x", bytesOfAscii "/y"⟩
      (by decide) (by decide)⟩

/-- C7: two handles are identity-equal exactly when their reported raw
file-location strings are equal, whatever else differs between them (the
handles are otherwise arbitrary). -/
theorem identity_eq_iff_same_file_string (a b : Env) (fa fb : Str)
    (ha : a.fileUrl = .ok fa) (hb : b.fileUrl = .ok fb) :
    envEqHashEq a b = some (decide (fa = fb)) ∧
      (envEqHashEq a b = some true ↔ fa = fb) := by
  unfold envEqHashEq
  rw [ha, hb]
  refine ⟨rfl, ?_, ?_⟩
  · intro hh
    simp only [Option.some.injEq] at hh
    exact of_decide_eq_true hh
  · intro hh
    simp [hh]

/-- Witness for C7: structurally different handles with equal strings
compare equal. -/
theorem identity_eq_iff_same_file_string_witness :
    envA.fileUrl = .ok (bytesOfAscii "file:///opt/app/addon.node") ∧
    envB.fileUrl = .ok (bytesOfAscii "file:///opt/app/addon.node") ∧
    (envEqHashEq envA envB = some true ↔
      bytesOfAscii "file:///opt/app/addon.node" =
        bytesOfAscii "file:///opt/app/addon.node") :=
  ⟨rfl, rfl,
    (identity_eq_iff_same_file_string envA envB _ _ rfl rfl).2⟩

/-- C10: the identity hash is consistent with identity equality — handles
that compare equal have equal hashes. -/
theorem hash_consistent_with_equality (a b : Env)
    (h : envEqHashEq a b = some true) :
    envEqHashHash a = envEqHashHash b := by
  unfold envEqHashEq at h
  cases ha : a.fileUrl with
  | error e => rw [ha] at h; simp at h
  | ok x =>
    rw [ha] at h
    cases hb : b.fileUrl with
    | error e => rw [hb] at h; simp at h
    | ok y =>
      rw [hb] at h
      simp only [Option.some.injEq, decide_eq_true_eq] at h
      subst h
      unfold envEqHashHash
      rw [ha, hb]

/-- Witness for C10 at two concrete equal-identity handles. -/
theorem hash_consistent_with_equality_witness :
    envEqHashEq envA envB = some true ∧
    envEqHashHash envA = envEqHashHash envB :=
  ⟨by decide, hash_consistent_with_equality envA envB (by decide)⟩

/-! Further helpers for the memoization and materializer claims. -/

theorem utf8PathEq_symm (a b : Str) : utf8PathEq a b = utf8PathEq b a := by
  by_cases h : pathComponents a = pathComponents b
  · simp [utf8PathEq, h]
  · simp [utf8PathEq, h, Ne.symm h]

theorem lookupFile_setFile_self (p c : Str) (l : List (Str × Str)) :
    lookupFile p (setFile p c l) = some c := by
  induction l with
  | nil => simp [setFile, lookupFile, memoFind, utf8PathEq_refl]
  | cons qd rest ih =>
    obtain ⟨q, d⟩ := qd
    by_cases h : utf8PathEq p q = true
    · simp [setFile, h, lookupFile, memoFind]
    · simp only [setFile, h]
      rw [if_neg (by simp [h])]
      simpa [lookupFile, memoFind, h] using ih

/-- First call of the materializer for a path not yet in the table, with a
working disk: one write attempt, the fixed body written at the derived
sibling path, and the result stored. -/
theorem esmPathFor_miss_ok (fs : Str → Except Str Unit) (p : Str)
    (st : CacheState) (hm : memoFind utf8PathEq p st.esmPathMemo = none)
    (hfs : fs (withAddedExtension p esmHelpersExtBytes) = .ok ()) :
    esm_helpers_path_for fs p st =
      (.ok (withAddedExtension p esmHelpersExtBytes),
        { st with
            writeAttempts := st.writeAttempts ++
              [withAddedExtension p esmHelpersExtBytes],
            files := setFile (withAddedExtension p esmHelpersExtBytes)
              esmHelpersJs st.files,
            esmPathMemo := st.esmPathMemo ++
              [(p, .ok (withAddedExtension p esmHelpersExtBytes))] }) := by
  unfold esm_helpers_path_for
  rw [hm, hfs]

/-- The happy-path hypotheses of the `require_for` body: the handle
reports identity `f`, normalizing `f` yields `p`, and every
host-capability call the body performs succeeds, producing handle `h`. -/
def happyRequire (env : Env) (f p : Str) (h : Nat) : Prop :=
  env.fileUrl = .ok f ∧ env.getGlobal = .ok () ∧ env.processProp = .ok () ∧
  env.getBuiltinModuleProp = .ok () ∧ env.callGetBuiltinModule = .ok () ∧
  env.castModule = .ok () ∧ env.createRequireProp = .ok () ∧
  fileUrlStringToUtf8PathBuf f = .ok p ∧ env.callCreateRequire p = .ok h ∧
  env.createRef = .ok ()

theorem requireBody_ok (env : Env) (f p : Str) (h : Nat)
    (hh : happyRequire env f p h) : requireBody env f = .ok h := by
  obtain ⟨_, h2, h3, h4, h5, h6, h7, h8, h9, h10⟩ := hh
  simp [requireBody, h2, h3, h4, h5, h6, h7, h8, h9, h10, bind, Except.bind,
    pure, Except.pure]

/-- First `require_for` computation under the happy-path hypotheses. -/
theorem requireForKeyed_miss_ok (env : Env) (f p : Str) (h : Nat)
    (st : CacheState) (hm : memoFind beqStr f st.requireMemo = none)
    (hh : happyRequire env f p h) :
    requireForKeyed env f st =
      (.ok h,
        { st with
            requireComputations := st.requireComputations ++ [f],
            requireMemo := st.requireMemo ++ [(f, .ok h)] }) := by
  unfold requireForKeyed
  rw [hm, requireBody_ok env f p h hh]

/-- A filesystem on which every write succeeds. -/
def fsAlwaysOk : Str → Except Str Unit := fun _ => .ok ()

/-- A filesystem on which every write fails with a fixed message. -/
def fsAlwaysFail : Str → Except Str Unit :=
  fun _ => .error (bytesOfAscii "disk full")

/-- C9: once a lookup returns an error it is memoized per identity: a
second `require_for` (resp. `esm_helpers_for`) lookup for the same
identity — from any handle reporting it, under any filesystem — returns
the same stored error and leaves the state unchanged, so none of the
host-capability calls re-execute. -/
theorem error_results_memoized (fs fs' : Str → Except Str Unit)
    (env env' : Env) (f e e' : Str) (st st1 st1' : CacheState)
    (hf : env.fileUrl = .ok f) (hf' : env'.fileUrl = .ok f)
    (hr : require_for env st = some (.error e, st1))
    (he : esm_helpers_for fs env st = some (.error e', st1')) :
    require_for env' st1 = some (.error e, st1) ∧
    esm_helpers_for fs' env' st1' = some (.error e', st1') := by
  unfold require_for esm_helpers_for at *
  rw [hf] at hr he
  rw [hf']
  simp only [Option.some.injEq] at hr he
  constructor
  · show some (requireForKeyed env' f st1) = some (.error e, st1)
    rw [requireForKeyed_fix env env' f st _ _ hr]
  · show some (esmForKeyed fs' env' f st1') = some (.error e', st1')
    rw [esmForKeyed_fix fs fs' env env' f st _ _ he]

/-- A handle whose host global-object lookup fails. -/
def envFail : Env :=
  { envA with getGlobal := .error (bytesOfAscii "getGlobal failed") }

/-- The identity key of the concrete witness handles. -/
def keyA : Str := bytesOfAscii "file:///opt/app/addon.node"

/-- First (error-producing) require run of the C9 witness. -/
def failRunRequire : Except Str Nat × CacheState :=
  requireForKeyed envFail keyA initState

/-- First (error-producing) esm-helpers run of the C9 witness. -/
def failRunEsm : Except Str Nat × CacheState :=
  esmForKeyed fsAlwaysOk envFail keyA initState

/-- Witness for C9: a concrete failing handle; both lookups return the
stored error the second time, with unchanged state. -/
theorem error_results_memoized_witness :
    require_for envFail initState =
      some (.error (bytesOfAscii "getGlobal failed"), failRunRequire.2) ∧
    esm_helpers_for fsAlwaysOk envFail initState =
      some (.error (bytesOfAscii "getGlobal failed"), failRunEsm.2) ∧
    (require_for envFail failRunRequire.2 =
      some (.error (bytesOfAscii "getGlobal failed"), failRunRequire.2) ∧
    esm_helpers_for fsAlwaysOk envFail failRunEsm.2 =
      some (.error (bytesOfAscii "getGlobal failed"), failRunEsm.2)) :=
  ⟨by decide, by decide,
    error_results_memoized fsAlwaysOk fsAlwaysOk envFail envFail keyA
      (bytesOfAscii "getGlobal failed") (bytesOfAscii "getGlobal failed")
      initState failRunRequire.2 failRunEsm.2
      (by decide) (by decide) (by decide) (by decide)⟩

/-- The concrete native-module path of the C2 counterexample. -/
def addonPathA : Str := bytesOfAscii "/opt/app/addon.node"

/-- First (failing) materializer run of the C2 counterexample. -/
def c2run1 : Except Str Str × CacheState :=
  esm_helpers_path_for fsAlwaysFail addonPathA initState

/-- C2 counterexample: after an I/O failure the failed attempt IS cached.
The second call for the same path returns the stored `IoError` and leaves
the state unchanged — the write-attempt log still has exactly one entry —
even though the claim predicts a re-attempted disk write (which would make
two attempts).  The second call is even run against a filesystem that
would now succeed, and still returns the stored error. -/
theorem failed_write_not_retried_counterexample :
    c2run1.1 = .error (bytesOfAscii "disk full") ∧
    c2run1.2.writeAttempts.length = 1 ∧
    esm_helpers_path_for fsAlwaysOk addonPathA c2run1.2 =
      (.error (bytesOfAscii "disk full"), c2run1.2) ∧
    ¬ (esm_helpers_path_for fsAlwaysOk addonPathA
        c2run1.2).2.writeAttempts.length = 2 := by
  refine ⟨by decide, by decide, by decide, by decide⟩

/-- C2 amended: a failed materialization attempt is cached like any other
result: a later call for the same path — under any filesystem, even one
that would now succeed — returns the stored error with unchanged state and
re-attempts no disk write. -/
theorem failed_write_is_cached (fs fs' : Str → Except Str Unit)
    (p e : Str) (st st1 : CacheState)
    (h : esm_helpers_path_for fs p st = (.error e, st1)) :
    esm_helpers_path_for fs' p st1 = (.error e, st1) ∧
    (esm_helpers_path_for fs' p st1).2.writeAttempts = st1.writeAttempts := by
  have hfix := esmPathFor_fix fs fs' p p st (.error e) st1
    (utf8PathEq_refl p) h
  exact ⟨hfix, by rw [hfix]⟩

/-- Witness for C2's amended claim at the concrete failing run. -/
theorem failed_write_is_cached_witness :
    esm_helpers_path_for fsAlwaysFail addonPathA initState =
      (.error (bytesOfAscii "disk full"), c2run1.2) ∧
    (esm_helpers_path_for fsAlwaysOk addonPathA c2run1.2 =
      (.error (bytesOfAscii "disk full"), c2run1.2) ∧
    (esm_helpers_path_for fsAlwaysOk addonPathA
        c2run1.2).2.writeAttempts = c2run1.2.writeAttempts) :=
  ⟨by decide,
    failed_write_is_cached fsAlwaysFail fsAlwaysOk addonPathA
      (bytesOfAscii "disk full") initState c2run1.2 (by decide)⟩

/-- C8: the materializer, called twice for the same path, performs exactly
one disk write; called for two distinct paths, it performs two writes,
each at the sibling location derived by appending the fixed suffix,
writing the fixed script body and overwriting whatever content was there
before (the initial filesystem `files0` is arbitrary). -/
theorem materializer_write_once_per_path (fs : Str → Except Str Unit)
    (p1 p2 : Str) (files0 : List (Str × Str))
    (hfs1 : fs (withAddedExtension p1 esmHelpersExtBytes) = .ok ())
    (hfs2 : fs (withAddedExtension p2 esmHelpersExtBytes) = .ok ())
    (hne : utf8PathEq p1 p2 = false) :
    ∀ r1 st1, esm_helpers_path_for fs p1
        { initState with files := files0 } = (r1, st1) →
      r1 = .ok (withAddedExtension p1 esmHelpersExtBytes) ∧
      st1.writeAttempts = [withAddedExtension p1 esmHelpersExtBytes] ∧
      lookupFile (withAddedExtension p1 esmHelpersExtBytes) st1.files =
        some esmHelpersJs ∧
      esm_helpers_path_for fs p1 st1 = (r1, st1) ∧
      ∀ r2 st2, esm_helpers_path_for fs p2 st1 = (r2, st2) →
        r2 = .ok (withAddedExtension p2 esmHelpersExtBytes) ∧
        st2.writeAttempts = [withAddedExtension p1 esmHelpersExtBytes,
          withAddedExtension p2 esmHelpersExtBytes] ∧
        lookupFile (withAddedExtension p2 esmHelpersExtBytes) st2.files =
          some esmHelpersJs := by
  intro r1 st1 h1
  have hrun1 := esmPathFor_miss_ok fs p1 { initState with files := files0 }
    rfl hfs1
  have hcomb1 := h1.symm.trans hrun1
  simp only [Prod.mk.injEq] at hcomb1
  obtain ⟨rfl, rfl⟩ := hcomb1
  refine ⟨rfl, ?_, ?_, ?_, ?_⟩
  · simp [initState]
  · exact lookupFile_setFile_self _ _ _
  · exact esmPathFor_fix fs fs p1 p1 _ _ _ (utf8PathEq_refl p1) hrun1
  · intro r2 st2 h2
    have hne' : utf8PathEq p2 p1 = false := by
      rw [utf8PathEq_symm]; exact hne
    have hcomb2 := h2.symm.trans (esmPathFor_miss_ok fs p2 _
      (by simp [memoFind, initState, hne']) hfs2)
    simp only [Prod.mk.injEq] at hcomb2
    obtain ⟨rfl, rfl⟩ := hcomb2
    refine ⟨rfl, ?_, ?_⟩
    · simp [initState]
    · exact lookupFile_setFile_self _ _ _

/-- A second, distinct native-module path for the C8 witness. -/
def pathB : Str := bytesOfAscii "/srv/other.node"

/-- Initial filesystem of the C8 witness: stale content already sits at
the derived sibling location. -/
def c8state0 : CacheState :=
  { initState with
      files := [(withAddedExtension addonPathA esmHelpersExtBytes,
        bytesOfAscii "stale")] }

/-- First materializer run of the C8 witness. -/
def c8run1 : Except Str Str × CacheState :=
  esm_helpers_path_for fsAlwaysOk addonPathA c8state0

/-- Second materializer run (distinct path) of the C8 witness. -/
def c8run2 : Except Str Str × CacheState :=
  esm_helpers_path_for fsAlwaysOk pathB c8run1.2

/-- Witness for C8 at two concrete distinct paths, with stale content
overwritten at the first derived location. -/
theorem materializer_write_once_per_path_witness :
    utf8PathEq addonPathA pathB = false ∧
    c8run1.1 = .ok (withAddedExtension addonPathA esmHelpersExtBytes) ∧
    c8run1.2.writeAttempts =
      [withAddedExtension addonPathA esmHelpersExtBytes] ∧
    lookupFile (withAddedExtension addonPathA esmHelpersExtBytes)
      c8run1.2.files = some esmHelpersJs ∧
    esm_helpers_path_for fsAlwaysOk addonPathA c8run1.2 =
      (c8run1.1, c8run1.2) ∧
    c8run2.1 = .ok (withAddedExtension pathB esmHelpersExtBytes) ∧
    c8run2.2.writeAttempts =
      [withAddedExtension addonPathA esmHelpersExtBytes,
       withAddedExtension pathB esmHelpersExtBytes] ∧
    lookupFile (withAddedExtension pathB esmHelpersExtBytes)
      c8run2.2.files = some esmHelpersJs := by
  have T := materializer_write_once_per_path fsAlwaysOk addonPathA pathB
    [(withAddedExtension addonPathA esmHelpersExtBytes,
      bytesOfAscii "stale")]
    rfl rfl (by decide) c8run1.1 c8run1.2 rfl
  have T2 := T.2.2.2.2 c8run2.1 c8run2.2 rfl
  exact ⟨by decide, T.1, T.2.1, T.2.2.1, T.2.2.2.1, T2.1, T2.2.1, T2.2.2⟩

/-- C4: under a cooperative host, `is_main` returns `Ok(false)` — not an
error — when the host reports no entry-point module at all, and otherwise
returns `Ok` of exactly the path-equality test between the current
module's normalized filename and the entry point's reported filename. -/
theorem is_main_matches_entry_point (env : Env) (f p : Str) (h : Nat)
    (hh : happyRequire env f p h) (hbb : env.borrowBack = .ok ()) :
    (env.mainProp = .ok none →
      is_main env initState =
        some (.ok false, (requireForKeyed env f initState).2)) ∧
    (∀ m, env.mainProp = .ok (some (.ok m)) →
      is_main env initState =
        some (.ok (utf8PathEq p m), (requireForKeyed env f initState).2)) := by
  have hf := hh.1
  have hnorm := hh.2.2.2.2.2.2.2.1
  have hrun := requireForKeyed_miss_ok env f p h initState rfl hh
  constructor
  · intro hmain
    simp only [is_main, hf, hrun, hbb, hmain]
  · intro m hmain
    simp only [is_main, hf, hrun, hbb, hmain, hnorm]

/-- A cooperative handle whose host entry point is the module itself. -/
def envMain : Env :=
  { envA with
      mainProp := Except.ok (some (Except.ok
        (bytesOfAscii "/opt/app/addon.node"))) }

/-- Witness for C4: with no entry point `is_main` answers `Ok(false)`;
with the entry point at the module's own path it answers `Ok(true)`. -/
theorem is_main_matches_entry_point_witness :
    is_main envA initState =
      some (.ok false, (requireForKeyed envA keyA initState).2) ∧
    is_main envMain initState =
      some (.ok true, (requireForKeyed envMain keyA initState).2) := by
  have T1 := (is_main_matches_entry_point envA keyA
    (bytesOfAscii "/opt/app/addon.node") 1
    (by unfold happyRequire; decide) rfl).1 rfl
  have T2 := (is_main_matches_entry_point envMain keyA
    (bytesOfAscii "/opt/app/addon.node") 1
    (by unfold happyRequire; decide) rfl).2
    (bytesOfAscii "/opt/app/addon.node") rfl
  rw [(by decide : utf8PathEq (bytesOfAscii "/opt/app/addon.node")
    (bytesOfAscii "/opt/app/addon.node") = true)] at T2
  exact ⟨T1, T2⟩


/-- Every byte of a valid UTF-8 byte string is below 256. -/
theorem isValidUtf8_all_lt (p : Str) :
    isValidUtf8 p = true → p.all (fun b => decide (b < 256)) = true := by
  induction p using isValidUtf8.induct <;> intro h <;>
    (try unfold isValidUtf8 at h) <;>
    (repeat split at h) <;>
    (try simp_all [isContByte, List.all_cons]) <;>
    (try omega)

theorem isValidUtf8_bytes_lt (p : Str) (h : isValidUtf8 p = true) :
    ∀ x ∈ p, x < 256 := by
  have := isValidUtf8_all_lt p h
  simp only [List.all_eq_true, decide_eq_true_eq] at this
  exact this

theorem percentDecode_cons_ne (b : Nat) (xs : Str) (hb : b ≠ 37) :
    percentDecode (b :: xs) = b :: percentDecode xs := by
  cases xs with
  | nil => simp [percentDecode]
  | cons c t =>
    cases t with
    | nil => simp [percentDecode]
    | cons d r => simp [percentDecode, hb]

theorem hexVal_hexDigitByte (n : Nat) (h : n < 16) :
    hexVal (hexDigitByte n) = n := by
  unfold hexDigitByte hexVal
  split
  · rw [if_pos (by omega)]
    omega
  · rw [if_neg (by omega), if_pos (by omega)]
    omega

theorem isHexDigitByte_hexDigitByte (n : Nat) (h : n < 16) :
    isHexDigitByte (hexDigitByte n) = true := by
  unfold hexDigitByte isHexDigitByte isDigitByte
  split <;> simp <;> omega

theorem pathSafeByte_ne_37 (b : Nat) (h : pathSafeByte b = true) : b ≠ 37 := by
  intro hb
  subst hb
  exact absurd h (by decide)

theorem percentEncode_cons (b : Nat) (t : Str) :
    percentEncode (b :: t) = percentEncodeByte b ++ percentEncode t := by
  simp [percentEncode]

theorem percentDecode_percentEncode (p : Str) (hb : ∀ b ∈ p, b < 256) :
    percentDecode (percentEncode p) = p := by
  induction p with
  | nil => simp [percentEncode, percentDecode]
  | cons b t ih =>
    have hbt : ∀ x ∈ t, x < 256 := fun x hx => hb x (List.mem_cons_of_mem _ hx)
    have hb256 : b < 256 := hb b (List.mem_cons_self _ _)
    rw [percentEncode_cons]
    by_cases hs : pathSafeByte b = true
    · rw [show percentEncodeByte b = [b] from by simp [percentEncodeByte, hs]]
      rw [List.cons_append, List.nil_append,
        percentDecode_cons_ne b _ (pathSafeByte_ne_37 b hs), ih hbt]
    · rw [show percentEncodeByte b =
        [37, hexDigitByte (b / 16 % 16), hexDigitByte (b % 16)] from by
          simp [percentEncodeByte, hs]]
      have hh1 : b / 16 % 16 < 16 := Nat.mod_lt _ (by omega)
      have hh2 : b % 16 < 16 := Nat.mod_lt _ (by omega)
      simp only [List.cons_append, List.nil_append, percentDecode,
        isHexDigitByte_hexDigitByte _ hh1, isHexDigitByte_hexDigitByte _ hh2,
        Bool.and_self, if_pos,
        hexVal_hexDigitByte _ hh1, hexVal_hexDigitByte _ hh2]
      have hbval : b / 16 % 16 * 16 + b % 16 = b := by omega
      rw [hbval]
      show b :: percentDecode (percentEncode t) = b :: t
      rw [ih hbt]

theorem splitAtColon_append (a r : Str) (ha : (58 : Nat) ∉ a) :
    splitAtColon (a ++ 58 :: r) = some (a, r) := by
  induction a with
  | nil => simp [splitAtColon]
  | cons b t ih =>
    have hb : b ≠ 58 := by
      intro hh
      exact ha (hh ▸ List.mem_cons_self _ _)
    have ht : (58 : Nat) ∉ t := fun hh => ha (List.mem_cons_of_mem _ hh)
    simp [splitAtColon, hb, ih ht]

theorem parseUrl_fileUrl (p' : Str) :
    parseUrl (bytesOfAscii "file://" ++ 47 :: p') =
      .ok ⟨fileBytes, [], 47 :: p'⟩ := by
  have hsplit : splitAtColon (bytesOfAscii "file://" ++ 47 :: p') =
      some (fileBytes, 47 :: 47 :: 47 :: p') := by
    rw [show bytesOfAscii "file://" ++ 47 :: p' =
      fileBytes ++ 58 :: (47 :: 47 :: 47 :: p') from rfl]
    exact splitAtColon_append _ _ (by decide)
  unfold parseUrl
  rw [hsplit]
  rfl

theorem toFilePath_ok_head (u : Url) (q : Str)
    (ht : toFilePath u = .ok q) : ∃ t, q = 47 :: t := by
  unfold toFilePath at ht
  split at ht
  · simp at ht
  · split at ht
    next rest heq =>
      simp only [Except.ok.injEq] at ht
      refine ⟨percentDecode rest, ?_⟩
      rw [← ht, heq, percentDecode_cons_ne 47 rest (by decide)]
    · simp at ht

theorem normalize_ok_inv (s p : Str)
    (h : fileUrlStringToUtf8PathBuf s = .ok p) :
    isValidUtf8 p = true ∧ ∃ p', p = 47 :: p' := by
  unfold fileUrlStringToUtf8PathBuf at h
  split at h
  · simp at h
  next u heq =>
    split at h
    · simp at h
    · split at h
      next e heq2 => simp at h
      next q heq2 =>
        split at h
        next hv =>
          simp only [Except.ok.injEq] at h
          subst h
          exact ⟨hv, toFilePath_ok_head u q heq2⟩
        next hv => simp at h

/-- C6: the normalizer is deterministic (it is a pure function of its
input, stated as trivial self-equality), and idempotent as a round trip:
whenever it accepts a well-formed `file:` URL string and yields path `p`,
constructing a new `file:` URL from `p` succeeds and normalizing that URL
yields `p` again. -/
theorem normalize_roundtrip (s p : Str)
    (h : fileUrlStringToUtf8PathBuf s = .ok p) :
    fileUrlStringToUtf8PathBuf s = fileUrlStringToUtf8PathBuf s ∧
    fileUrlStringFromPath p =
      some (bytesOfAscii "file://" ++ percentEncode p) ∧
    fileUrlStringToUtf8PathBuf (bytesOfAscii "file://" ++ percentEncode p) =
      .ok p := by
  obtain ⟨hv, p', rfl⟩ := normalize_ok_inv s p h
  have henc : percentEncode (47 :: p') = 47 :: percentEncode p' := by
    rw [percentEncode_cons, show percentEncodeByte 47 = [47] from by decide]
    rfl
  refine ⟨rfl, rfl, ?_⟩
  rw [henc]
  show (if isValidUtf8 (percentDecode (47 :: percentEncode p')) = true
      then Except.ok (percentDecode (47 :: percentEncode p'))
      else Except.error FileUrlStringToUtf8PathBufError.pathNotUtf8) =
    Except.ok (47 :: p')
  rw [← henc, percentDecode_percentEncode _ (isValidUtf8_bytes_lt _ hv),
    if_pos hv]

/-- Witness for C6 at a concrete percent-encoded URL. -/
theorem normalize_roundtrip_witness :
    fileUrlStringToUtf8PathBuf (bytesOfAscii "file:///a%20b/c.node") =
      .ok (bytesOfAscii "/a b/c.node") ∧
    (fileUrlStringToUtf8PathBuf (bytesOfAscii "file:///a%20b/c.node") =
      fileUrlStringToUtf8PathBuf (bytesOfAscii "file:///a%20b/c.node") ∧
    fileUrlStringFromPath (bytesOfAscii "/a b/c.node") =
      some (bytesOfAscii "file://" ++
        percentEncode (bytesOfAscii "/a b/c.node")) ∧
    fileUrlStringToUtf8PathBuf (bytesOfAscii "file://" ++
        percentEncode (bytesOfAscii "/a b/c.node")) =
      .ok (bytesOfAscii "/a b/c.node")) :=
  ⟨by decide, normalize_roundtrip _ _ (by decide)⟩


/-! Claim C1: memoization of the resolver cache. -/

/-- The happy-path hypotheses of the `esm_helpers_for` body: happy require
chain, successful rebinding, a host that can require any helper-script
path (yielding handle `h2`), and successful cast and reference creation. -/
def happyEsmAll (env : Env) (f p : Str) (h1 h2 : Nat) : Prop :=
  happyRequire env f p h1 ∧ env.borrowBack = .ok () ∧
  (∀ q, env.requireEsmHelpers q = .ok h2) ∧
  env.castEsmHelpers = .ok () ∧ env.createEsmRef = .ok ()

/-- A cooperative handle whose identity aliases `envA`: a different raw
file-location string that normalizes to the same filesystem path. -/
def envAlias : Env :=
  okEnvAt (bytesOfAscii "file://localhost/opt/app/addon.node")

/-- The aliasing identity key. -/
def keyAlias : Str := bytesOfAscii "file://localhost/opt/app/addon.node"

/-- First esm-helpers run (identity `keyA`). -/
def c1runA : Except Str Nat × CacheState :=
  esmForKeyed fsAlwaysOk envA keyA initState

/-- Second esm-helpers run, different identity, same normalized path. -/
def c1runB : Except Str Nat × CacheState :=
  esmForKeyed fsAlwaysOk envAlias keyAlias c1runA.2

/-- C1 counterexample: two distinct identities (different raw file-URL
strings) whose normalized paths coincide.  The second lookup re-runs the
host-capability computation (both computation logs grow to two entries)
but performs no fresh disk write: the write-attempt log still has exactly
one entry, not the two the claim predicts. -/
theorem resolver_cache_write_not_fresh_counterexample :
    keyA ≠ keyAlias ∧
    esm_helpers_for fsAlwaysOk envA initState = some c1runA ∧
    esm_helpers_for fsAlwaysOk envAlias c1runA.2 = some c1runB ∧
    c1runA.1 = .ok 2 ∧ c1runB.1 = .ok 2 ∧
    c1runB.2.requireComputations.length = 2 ∧
    c1runB.2.esmComputations.length = 2 ∧
    c1runB.2.writeAttempts.length = 1 ∧
    ¬ c1runB.2.writeAttempts.length = 2 := by
  refine ⟨by decide, by decide, by decide, by decide, by decide, by decide,
    by decide, by decide, by decide⟩

/-- C1 (amended): for a fixed identity, repeated
`require_for`/`esm_helpers_for` lookups perform the expensive computation
at most once: the first lookup logs exactly one host-capability
computation per table and one disk-write attempt, and subsequent lookups
return the stored handle with unchanged state.  For a different identity
the host-capability computation is performed fresh; the disk write,
however, is keyed by the normalized native-module path rather than the
identity, so it is fresh exactly when the new identity's path is not
already materialized and is skipped when the two paths coincide. -/
theorem resolver_cache_memoized_per_identity (fs : Str → Except Str Unit)
    (env env' : Env) (f f' p p' : Str) (h1 h2 h1' h2' : Nat)
    (hh : happyEsmAll env f p h1 h2) (hh' : happyEsmAll env' f' p' h1' h2')
    (hfs : ∀ q, fs q = .ok ()) (hne : f ≠ f') :
    ∀ r1 st1, esm_helpers_for fs env initState = some (r1, st1) →
      r1 = .ok h2 ∧
      st1.requireComputations = [f] ∧
      st1.esmComputations = [f] ∧
      st1.writeAttempts = [withAddedExtension p esmHelpersExtBytes] ∧
      esm_helpers_for fs env st1 = some (r1, st1) ∧
      require_for env st1 = some (.ok h1, st1) ∧
      ∀ r2 st2, esm_helpers_for fs env' st1 = some (r2, st2) →
        r2 = .ok h2' ∧
        st2.requireComputations = [f, f'] ∧
        st2.esmComputations = [f, f'] ∧
        st2.writeAttempts =
          (if utf8PathEq p' p = true
           then [withAddedExtension p esmHelpersExtBytes]
           else [withAddedExtension p esmHelpersExtBytes,
                 withAddedExtension p' esmHelpersExtBytes]) := by
  obtain ⟨⟨hfu, hg, hpp, hgb, hcb, hcm, hcr, hnorm, hcc, href⟩,
    hbb, hre, hce, hcer⟩ := hh
  obtain ⟨⟨hfu', hg', hpp', hgb', hcb', hcm', hcr', hnorm', hcc', href'⟩,
    hbb', hre', hce', hcer'⟩ := hh'
  have hne' : f' ≠ f := Ne.symm hne
  intro r1 st1 hrun
  simp only [esm_helpers_for, hfu, Option.some.injEq] at hrun
  have hrun0 := hrun
  simp only [esmForKeyed, esmBody, esm_helpers_path_for, requireForKeyed,
    requireBody, memoFind, initState, beqStr_self, hnorm, hfs, hg, hpp, hgb,
    hcb, hcm, hcr, hcc, href, hbb, hre, hce, hcer,
    bind, Except.bind, pure, Except.pure, if_true] at hrun
  simp only [Prod.mk.injEq] at hrun
  obtain ⟨rfl, rfl⟩ := hrun
  refine ⟨rfl, by simp [initState], by simp [initState], by simp [initState],
    ?_, ?_, ?_⟩
  · simp only [esm_helpers_for, hfu, Option.some.injEq]
    exact esmForKeyed_fix fs fs env env f initState _ _ hrun0
  · simp [require_for, hfu, requireForKeyed, memoFind, beqStr_self, initState]
  · intro r2 st2 hrun2
    simp only [esm_helpers_for, hfu', Option.some.injEq] at hrun2
    by_cases hpe : utf8PathEq p' p = true
    · simp [esmForKeyed, esmBody, esm_helpers_path_for, requireForKeyed,
        requireBody, memoFind, initState, beqStr, hne', hnorm', hfs, hg',
        hpp', hgb', hcb', hcm', hcr', hcc', href', hbb', hre', hce', hcer',
        hpe, beqStr_self, bind, Except.bind, pure, Except.pure] at hrun2
      obtain ⟨rfl, rfl⟩ := hrun2
      refine ⟨rfl, rfl, rfl, ?_⟩
      rw [if_pos hpe]
    · have hpe' : utf8PathEq p' p = false := by
        simpa using hpe
      simp [esmForKeyed, esmBody, esm_helpers_path_for, requireForKeyed,
        requireBody, memoFind, initState, beqStr, hne', hnorm', hfs, hg',
        hpp', hgb', hcb', hcm', hcr', hcc', href', hbb', hre', hce', hcer',
        hpe', beqStr_self, bind, Except.bind, pure, Except.pure] at hrun2
      obtain ⟨rfl, rfl⟩ := hrun2
      refine ⟨rfl, rfl, rfl, ?_⟩
      rw [if_neg (by simp [hpe'])]

/-- A cooperative handle at a genuinely different location (distinct
identity and distinct normalized path). -/
def envC : Env := okEnvAt (bytesOfAscii "file:///srv/other.node")

/-- The identity key of `envC`. -/
def keyC : Str := bytesOfAscii "file:///srv/other.node"

/-- Second esm-helpers run of the C1 witness (distinct path). -/
def c1wRun2 : Except Str Nat × CacheState :=
  esmForKeyed fsAlwaysOk envC keyC c1runA.2

/-- Witness for C1's amended claim at two concrete handles with distinct
identities and distinct paths. -/
theorem resolver_cache_memoized_per_identity_witness :
    c1runA.1 = .ok 2 ∧
    c1runA.2.requireComputations = [keyA] ∧
    c1runA.2.esmComputations = [keyA] ∧
    c1runA.2.writeAttempts =
      [withAddedExtension (bytesOfAscii "/opt/app/addon.node")
        esmHelpersExtBytes] ∧
    esm_helpers_for fsAlwaysOk envA c1runA.2 = some (c1runA.1, c1runA.2) ∧
    require_for envA c1runA.2 = some (.ok 1, c1runA.2) ∧
    c1wRun2.1 = .ok 2 ∧
    c1wRun2.2.requireComputations = [keyA, keyC] ∧
    c1wRun2.2.esmComputations = [keyA, keyC] ∧
    c1wRun2.2.writeAttempts =
      (if utf8PathEq (bytesOfAscii "/srv/other.node")
          (bytesOfAscii "/opt/app/addon.node") = true
       then [withAddedExtension (bytesOfAscii "/opt/app/addon.node")
         esmHelpersExtBytes]
       else [withAddedExtension (bytesOfAscii "/opt/app/addon.node")
           esmHelpersExtBytes,
         withAddedExtension (bytesOfAscii "/srv/other.node")
           esmHelpersExtBytes]) := by
  have T := resolver_cache_memoized_per_identity fsAlwaysOk envA envC
    keyA keyC (bytesOfAscii "/opt/app/addon.node")
    (bytesOfAscii "/srv/other.node") 1 2 1 2
    ⟨by unfold happyRequire; decide, rfl, fun q => rfl, rfl, rfl⟩
    ⟨by unfold happyRequire; decide, rfl, fun q => rfl, rfl, rfl⟩
    (fun q => rfl) (by decide) c1runA.1 c1runA.2 rfl
  have T2 := T.2.2.2.2.2.2 c1wRun2.1 c1wRun2.2 rfl
  exact ⟨T.1, T.2.1, T.2.2.1, T.2.2.2.1, T.2.2.2.2.1, T.2.2.2.2.2.1,
    T2.1, T2.2.1, T2.2.2.1, T2.2.2.2⟩

end NapiModules
